import Mathlib

/-!
# Verification of the MCQ generator and quiz web app

A shallow embedding of the two source files of the repository:

* `main.py` — the generation pipeline: pydantic models for the structured
  service response, SQLite persistence (`init_database`, `clear_database`,
  `save_questions_to_db`) and the CLI entry point `main`.
* `app.py` — the Flask quiz app: the session-state quiz engine behind the
  routes `index` (`/`), `question` (`/question`), `retry_wrong`
  (`/retry-wrong`) and `results` (`/results`), plus Python `random.shuffle`
  modelled as the Fisher-Yates walk it performs.

Pure data is translated directly; the SQLite store is explicit state; the
Flask session object is an explicit `SessionState` record; HTTP requests are
explicit request values and rendering is an explicit `View` value.
-/

/-! ## Generation pipeline data model (main.py)

Pydantic models for the structured service output.  The source class is
named `Option`; that name belongs to Lean's core, so the embedding calls it
`MCQOption`. -/

/-- Source class `Option` (pydantic): one answer option of a generated
question: its text and a correctness flag. -/
structure MCQOption where
  text : String
  is_correct : Bool
deriving DecidableEq

/-- Source class `Question` (pydantic): a generated question, its text and
its list of options (the pydantic field constraint demands exactly 4). -/
structure Question where
  text : String
  options : List MCQOption
deriving DecidableEq

/-- Source class `MCQResponse` (pydantic): the whole structured service
response, a list of generated questions. -/
structure MCQResponse where
  questions : List Question
deriving DecidableEq

/-- The shape validation `MCQResponse.model_validate_json` performs on the
service text: field types are enforced by the embedding's types themselves,
so what remains is the only explicit constraint in the models, the
`min_length=4, max_length=4` bound on each question's option list.  No check
relates the `is_correct` flags of a question's options to one another. -/
def validate_mcq_response (r : MCQResponse) : Except String MCQResponse :=
  if r.questions.all (fun q => q.options.length == 4) then .ok r
  else .error "validation error"

/-! ## Question store (main.py SQLite schema) -/

/-- One row of the `questions` table. -/
structure QuestionRow where
  question_id : Nat
  text : String
deriving DecidableEq

/-- One row of the `options` table; `is_correct` is an SQLite integer
(`1 if option.is_correct else 0` at insertion). -/
structure OptionRow where
  option_id : Nat
  question_id : Nat
  text : String
  is_correct : Nat
deriving DecidableEq

/-- The store: both tables plus the two AUTOINCREMENT counters (the next
primary key each table will hand out). -/
structure DBState where
  questions : List QuestionRow
  options : List OptionRow
  next_question_id : Nat
  next_option_id : Nat
deriving DecidableEq

/-- `clear_database`: deletes every row of both tables and resets the
`sqlite_sequence` counters, so the next inserted ids are 1. -/
def clear_database (_db : DBState) : DBState := ⟨[], [], 1, 1⟩

/-- One `INSERT INTO options` statement of `save_questions_to_db`. -/
def insert_option (db : DBState) (qid : Nat) (o : MCQOption) : DBState :=
  { db with
      options := db.options ++
        [⟨db.next_option_id, qid, o.text, if o.is_correct then 1 else 0⟩],
      next_option_id := db.next_option_id + 1 }

/-- The body of the outer loop of `save_questions_to_db`: insert the
question row, read `cursor.lastrowid`, then insert each option row under
that question id. -/
def insert_question (db : DBState) (q : Question) : DBState :=
  let qid := db.next_question_id
  let db1 := { db with
      questions := db.questions ++ [⟨qid, q.text⟩],
      next_question_id := qid + 1 }
  q.options.foldl (fun d o => insert_option d qid o) db1

/-- `save_questions_to_db`: insert every question of the validated response,
each followed by its option rows. -/
def save_questions_to_db (db : DBState) (resp : MCQResponse) : DBState :=
  resp.questions.foldl insert_question db

/-- How many option rows of the store belong to question `qid` and carry
`is_correct = 1`. -/
def correct_row_count (db : DBState) (qid : Nat) : Nat :=
  (db.options.filter (fun r => r.question_id == qid && r.is_correct == 1)).length

/-! ## CLI surface of the generation pipeline (main.py `main`) -/

/-- Exhaustive outcomes of `main`'s argument handling.  The three exit
constructors all happen strictly before `init_database` / `clear_database` /
any network call; `run` means the pipeline proceeds to database and network
work with the given file paths and question count. -/
inductive MainResult where
  | usage_exit : MainResult
  | error_exit : MainResult
  | value_error : MainResult
  | run (file_paths : List String) (num_questions : Int) : MainResult
deriving DecidableEq

/-- The argument loop of `main`: `-n` followed by another argument consumes
both and re-parses the count (`int(...)`, whose failure is an uncaught
`ValueError`); every other argument — including a trailing `-n` with nothing
after it — is appended to the file-path list.  At the end, an empty
file-path list exits with an error message. -/
def parse_args : List String → List String → Int → MainResult
  | [], fps, n => if fps.isEmpty then .error_exit else .run fps n
  | a :: rest, fps, n =>
    if a = "-n" then
      match rest with
      | v :: rest2 =>
        match v.toInt? with
        | some m => parse_args rest2 fps m
        | none => .value_error
      | [] =>
        -- the loop body appends `a` and the loop then ends; the final
        -- check of `main` is inlined here (the iteration on `[]` written out)
        if (fps ++ [a]).isEmpty then .error_exit else .run (fps ++ [a]) n
    else parse_args rest (fps ++ [a]) n

namespace mcq_generator

/-- `main` on `sys.argv[1:]`: with no arguments at all it prints the usage
text and exits 1; otherwise it parses with the default count 10.  (The
source function is `main`; Lean reserves that name at the root for the
executable entry point, hence the namespace.) -/
def main (args : List String) : MainResult :=
  if args.isEmpty then .usage_exit else parse_args args [] 10

end mcq_generator

/-- Modelled from the spec: the CLI grammar
`<program> <file_path>... [-n <num_questions>]`, under which `-n` is a flag
consuming the following value and every other token is a file path.  Returns
the file paths the invocation gives, together with a flag recording a
trailing `-n` that has no value (an invocation the grammar does not
produce). -/
def spec_scan : List String → List String × Bool
  | [] => ([], false)
  | a :: rest =>
    if a = "-n" then
      match rest with
      | [] => ([], true)
      | _ :: rest2 => spec_scan rest2
    else
      let res := spec_scan rest
      (a :: res.1, res.2)

/-! ## Python `random.shuffle` (used by app.py `index`)

`random.shuffle(x)` walks `i` from `len(x) - 1` down to `1`, draws a random
`j` uniform on `[0, i]` and swaps `x[i]` with `x[j]` (Fisher-Yates).  The
stream of draws is modelled as a function from the loop index to an
arbitrary natural, reduced mod `i + 1`. -/

/-- Python tuple assignment `x[i], x[j] = x[j], x[i]` on a list; an
out-of-range index leaves the list unchanged (never reached by `shuffle`). -/
def listSwap {α : Type} (l : List α) (i j : Nat) : List α :=
  if h : i < l.length ∧ j < l.length then
    (l.set i (l.get ⟨j, h.2⟩)).set j (l.get ⟨i, h.1⟩)
  else l

/-- The downward Fisher-Yates walk: at index `i ≥ 1` swap positions `i` and
`r i % (i + 1)`, then continue at `i - 1`. -/
def fyDown {α : Type} (r : Nat → Nat) (l : List α) : Nat → List α
  | 0 => l
  | i + 1 => fyDown r (listSwap l (i + 1) (r (i + 1) % (i + 2))) i

/-- Model of `random.shuffle`: the Fisher-Yates walk from index `len - 1`. -/
def shuffle {α : Type} (r : Nat → Nat) (l : List α) : List α :=
  fyDown r l (l.length - 1)

/-! ## Quiz app data model (app.py)

`get_all_questions` returns the stored questions as dictionaries
`{question_id, text, options}`, each option a row dictionary of the
`options` table.  The quiz routes receive this pool. -/

/-- An option dictionary as `get_all_questions` returns it (a row of the
`options` table; `is_correct` is the stored integer, tested for truthiness
by the app). -/
structure StoredOption where
  option_id : Nat
  text : String
  is_correct : Nat
deriving DecidableEq

/-- A question dictionary as `get_all_questions` returns it. -/
structure StoredQuestion where
  question_id : Nat
  text : String
  options : List StoredOption
deriving DecidableEq

/-- The pool `get_all_questions()` hands to each route. -/
abbrev Pool := List StoredQuestion

/-- The Flask session of app.py, made explicit.  Each field is one session
key with its `session.get` default: `current_question` defaults to 0,
`answers` to `{}`, `wrong_questions` to `[]`, `question_ids` to `None`
(absent), `show_answer` to `False`, `selected_option` to `None`.  Python
keys the `answers` dict by `str(question_id)`; `str` is injective on the
ids, so the embedding keys it by the id itself. -/
structure SessionState where
  current_question : Nat
  answers : List (Nat × Nat)
  wrong_questions : List Nat
  question_ids : Option (List Nat)
  show_answer : Bool
  selected_option : Option Nat
deriving DecidableEq

/-- A fresh session before any route ran: every key absent, every
`session.get` falling back to its default. -/
def init_session : SessionState := ⟨0, [], [], none, false, none⟩

/-- Python dict write `d[k] = v`: overwrite in place if the key exists,
else append. -/
def dict_set (d : List (Nat × Nat)) (k v : Nat) : List (Nat × Nat) :=
  if d.any (fun p => p.1 == k) then
    d.map (fun p => if p.1 == k then (k, v) else p)
  else d ++ [(k, v)]

/-- Python dict read `d.get(k)`: the stored value or `None`. -/
def dict_get (d : List (Nat × Nat)) (k : Nat) : Option Nat :=
  (d.find? (fun p => p.1 == k)).map (fun p => p.2)

/-- The dict comprehension `q_map = {q["question_id"]: q for q in
all_questions}` followed by lookup: the last pool entry with the given id,
or `None`. -/
def q_map (pool : Pool) (qid : Nat) : Option StoredQuestion :=
  pool.foldl (fun acc q => if q.question_id == qid then some q else acc) none

/-- The question-list computation shared by the `question` and `results`
routes: if `session["question_ids"]` is truthy (present and non-empty),
`[q_map[qid] for qid in question_ids if qid in q_map]`; otherwise the whole
pool. -/
def filtered_questions (pool : Pool) (qids : Option (List Nat)) : Pool :=
  match qids with
  | some ids => if ids.isEmpty then pool else ids.filterMap (fun qid => q_map pool qid)
  | none => pool

/-- The `correct_option` scan of the `question` route: the id of the first
option whose stored `is_correct` integer is truthy (the loop breaks at the
first hit), or `None`. -/
def correct_option_first (q : StoredQuestion) : Option Nat :=
  (q.options.find? (fun o => o.is_correct != 0)).map (fun o => o.option_id)

/-- The wrong-answer test of the advance branch:
`selected_option and selected_option != correct_option` — the session value
must be present and truthy (a Python int is truthy iff non-zero) and differ
from `correct_option` (an int never equals `None`). -/
def wrong_selected (sel co : Option Nat) : Bool :=
  match sel with
  | none => false
  | some n => n != 0 && some n != co

/-- What a request to the quiz routes makes the server send back. -/
inductive View where
  | no_questions : View
  | redirect_question : View
  | redirect_results : View
  | redirect_index : View
  | question_view (q : StoredQuestion) (question_num total_questions : Nat)
      (show_answer : Bool) (selected_option : Option Nat)
      (correct_option : Option Nat) : View
deriving DecidableEq

/-- A request to the `question` route: a plain GET, a POST with
`action=submit` carrying the chosen option (`none` when the `answer` form
field is absent or empty, both falsy in the source), or a POST with
`action=next`. -/
inductive QuizReq where
  | get : QuizReq
  | submit (answer : Option Nat) : QuizReq
  | next : QuizReq
deriving DecidableEq

/-- The `/` route `index`: clear the session, reset position, answers and
wrong list, and store a shuffle of all pool ids as the new question order. -/
def index (pool : Pool) (r : Nat → Nat) : SessionState × View :=
  (⟨0, [], [], some (shuffle r (pool.map (fun q => q.question_id))), false, none⟩,
   .redirect_question)

/-- The `/question` route: render the current question and handle submit and
advance.  Returns the session state after the request together with the
response. -/
def question (pool : Pool) (s : SessionState) (req : QuizReq) : SessionState × View :=
  if pool.isEmpty then (s, .no_questions)
  else
    let questions := filtered_questions pool s.question_ids
    if questions.isEmpty then (s, .no_questions)
    else
      let current_idx := s.current_question
      if hlt : current_idx < questions.length then
        let current_q := questions.get ⟨current_idx, hlt⟩
        let co := correct_option_first current_q
        match req with
        | .get =>
          (s, .question_view current_q (current_idx + 1) questions.length
                s.show_answer s.selected_option co)
        | .submit ans =>
          match ans with
          | some sel =>
            let answers1 := dict_set s.answers current_q.question_id sel
            ({ s with selected_option := some sel, show_answer := true,
                      answers := answers1 },
             .question_view current_q (current_idx + 1) questions.length
               true (some sel) co)
          | none =>
            (s, .question_view current_q (current_idx + 1) questions.length
                  s.show_answer s.selected_option co)
        | .next =>
          let wrong1 :=
            if wrong_selected s.selected_option co
                && !(s.wrong_questions.contains current_q.question_id) then
              s.wrong_questions ++ [current_q.question_id]
            else s.wrong_questions
          ({ s with wrong_questions := wrong1, current_question := current_idx + 1,
                    show_answer := false, selected_option := none },
           .redirect_question)
      else (s, .redirect_results)

/-- The `/retry-wrong` route: with an empty wrong list, bounce to `index`;
otherwise reset position and answers, make the wrong list the new question
order and clear it for the new attempt.  `show_answer` and
`selected_option` are not touched. -/
def retry_wrong (s : SessionState) : SessionState × View :=
  if s.wrong_questions.isEmpty then (s, .redirect_index)
  else
    ({ s with current_question := 0, answers := [],
              question_ids := some s.wrong_questions, wrong_questions := [] },
     .redirect_question)

/-- One row of the results page: the question, the option the user selected
(if any), the correct option, and whether the selection was correct. -/
structure QuestionResult where
  question : StoredQuestion
  selected : Option StoredOption
  correct : Option StoredOption
  is_correct : Bool
deriving DecidableEq

/-- The last list element satisfying a predicate, as a Python
`for`-loop that keeps overwriting a variable computes it. -/
def last_find {α : Type} (p : α → Bool) (l : List α) : Option α :=
  l.foldl (fun acc x => if p x then some x else acc) none

/-- The per-question loop body of the `results` route.  Unlike the
`question` route, this loop does not break, so `correct` is the *last*
truthy-flagged option; `is_correct` is the truthiness of
`selected_option and selected_option["is_correct"]`. -/
def result_row (answers : List (Nat × Nat)) (q : StoredQuestion) : QuestionResult :=
  let selected_id := dict_get answers q.question_id
  let correct := last_find (fun o => o.is_correct != 0) q.options
  let selected := last_find (fun o => selected_id == some o.option_id) q.options
  ⟨q, selected, correct,
   match selected with
   | some o => o.is_correct != 0
   | none => false⟩

/-- Everything the `results` route passes to its template. -/
structure ScoreReport where
  results : List QuestionResult
  correct_count : Nat
  total : Nat
  has_wrong_answers : Bool
deriving DecidableEq

/-- The `/results` route: score every question of the active order against
the recorded answers.  It only reads the session. -/
def results (pool : Pool) (s : SessionState) : ScoreReport :=
  let questions := filtered_questions pool s.question_ids
  let rows := questions.map (result_row s.answers)
  ⟨rows, (rows.filter (fun row => row.is_correct)).length, questions.length,
   !s.wrong_questions.isEmpty⟩

/-- One user-initiated interaction with the app: visiting `/`, a request to
`/question`, visiting `/retry-wrong`, or visiting `/results` (which leaves
the session as is). -/
inductive Req where
  | start (r : Nat → Nat) : Req
  | quiz (q : QuizReq) : Req
  | retry : Req
  | show_results : Req

/-- The session state after one interaction. -/
def step (pool : Pool) (s : SessionState) : Req → SessionState
  | .start r => (index pool r).1
  | .quiz q => (question pool s q).1
  | .retry => (retry_wrong s).1
  | .show_results => s

/-- Session states a user can actually be in: everything the interaction
step reaches from a fresh session against a fixed pool. -/
inductive Reachable (pool : Pool) : SessionState → Prop where
  | init : Reachable pool init_session
  | step (r : Req) {s : SessionState} :
      Reachable pool s → Reachable pool (step pool s r)

/-! ## Concrete data: the three-question scenario of the spec

Pool of three questions; `Q1`'s correct option is its `A`, `Q2`'s its `B`,
`Q3`'s its `D`.  Option ids are the global autoincrement values the store
would assign (Q1: 1-4, Q2: 5-8, Q3: 9-12). -/

def pool3 : Pool :=
  [⟨1, "Q1", [⟨1, "A", 1⟩, ⟨2, "B", 0⟩, ⟨3, "C", 0⟩, ⟨4, "D", 0⟩]⟩,
   ⟨2, "Q2", [⟨5, "A", 0⟩, ⟨6, "B", 1⟩, ⟨7, "C", 0⟩, ⟨8, "D", 0⟩]⟩,
   ⟨3, "Q3", [⟨9, "A", 0⟩, ⟨10, "B", 0⟩, ⟨11, "C", 0⟩, ⟨12, "D", 1⟩]⟩]

/-- The identity draw stream: `r i % (i + 1) = i`, so every swap is a
self-swap and the shuffled order is `[1, 2, 3]` — the deterministic order
the scenario fixes. -/
def straight_draws : Nat → Nat := fun i => i

def t0 : SessionState := (index pool3 straight_draws).1
def t1 : SessionState := (question pool3 t0 (.submit (some 2))).1
def t2 : SessionState := (question pool3 t1 .next).1
def t3 : SessionState := (question pool3 t2 (.submit (some 6))).1
def t4 : SessionState := (question pool3 t3 .next).1
def t5 : SessionState := (question pool3 t4 (.submit (some 9))).1
def t6 : SessionState := (question pool3 t5 .next).1


/-- A service response whose single question carries two options flagged
correct — shaped exactly as the schema demands (4 options). -/
def two_correct_resp : MCQResponse :=
  ⟨[⟨"q", [⟨"a", true⟩, ⟨"b", true⟩, ⟨"c", false⟩, ⟨"d", false⟩]⟩]⟩

/-- A service response whose single question has exactly one correct flag. -/
def one_correct_resp : MCQResponse :=
  ⟨[⟨"q", [⟨"a", true⟩, ⟨"b", false⟩, ⟨"c", false⟩, ⟨"d", false⟩]⟩]⟩

/-- The option rows one saved question contributes: its options in order,
under its question id, with consecutive option ids from `oid`. -/
def option_rows (qid oid : Nat) : List MCQOption → List OptionRow
  | [] => []
  | o :: rest =>
    ⟨oid, qid, o.text, if o.is_correct then 1 else 0⟩ :: option_rows qid (oid + 1) rest

/-- The well-formedness carried through the save loop: every stored row's
question id is below the question AUTOINCREMENT counter. -/
def db_ids_below (db : DBState) : Prop :=
  (∀ row ∈ db.options, row.question_id < db.next_question_id)
    ∧ ∀ p ∈ db.questions, p.question_id < db.next_question_id

/-! ## Helper lemmas about the quiz routes -/

theorem filtered_questions_nil (qids : Option (List Nat)) :
    filtered_questions [] qids = [] := by
  match qids with
  | none => rfl
  | some ids =>
    simp only [filtered_questions]
    split
    · rfl
    · have hfm : ∀ ids2 : List Nat,
          List.filterMap (fun qid => q_map ([] : Pool) qid) ids2 = [] := by
        intro ids2
        induction ids2 with
        | nil => rfl
        | cons x xs ih =>
          have hnone : q_map ([] : Pool) x = none := rfl
          rw [List.filterMap_cons, hnone]
          exact ih
      exact hfm ids

theorem question_guards (pool : Pool) (s : SessionState) (req : QuizReq)
    (h : pool.isEmpty = true ∨ (filtered_questions pool s.question_ids).isEmpty = true) :
    (question pool s req).1 = s := by
  rcases h with h | h
  · unfold question; rw [if_pos h]
  · unfold question
    by_cases hp : pool.isEmpty = true
    · rw [if_pos hp]
    · rw [if_neg hp]
      simp only [h, if_true]

theorem question_get_state (pool : Pool) (s : SessionState) :
    (question pool s .get).1 = s := by
  by_cases hp : pool.isEmpty = true
  · exact question_guards pool s .get (Or.inl hp)
  · by_cases hq2 : (filtered_questions pool s.question_ids).isEmpty = true
    · exact question_guards pool s .get (Or.inr hq2)
    · unfold question
      rw [if_neg hp]
      simp only [hq2, Bool.false_eq_true, if_false]
      split <;> rfl

theorem question_submit_none_state (pool : Pool) (s : SessionState) :
    (question pool s (.submit none)).1 = s := by
  by_cases hp : pool.isEmpty = true
  · exact question_guards pool s _ (Or.inl hp)
  · by_cases hq2 : (filtered_questions pool s.question_ids).isEmpty = true
    · exact question_guards pool s _ (Or.inr hq2)
    · unfold question
      rw [if_neg hp]
      simp only [hq2, Bool.false_eq_true, if_false]
      split <;> rfl

theorem question_stuck (pool : Pool) (s : SessionState) (req : QuizReq)
    (h : ¬ s.current_question < (filtered_questions pool s.question_ids).length) :
    (question pool s req).1 = s := by
  by_cases hp : pool.isEmpty = true
  · exact question_guards pool s req (Or.inl hp)
  · by_cases hq2 : (filtered_questions pool s.question_ids).isEmpty = true
    · exact question_guards pool s req (Or.inr hq2)
    · unfold question
      rw [if_neg hp]
      simp only [hq2, Bool.false_eq_true, if_false, dif_neg h]

theorem question_submit_some_state (pool : Pool) (s : SessionState) (sel : Nat)
    (h : s.current_question < (filtered_questions pool s.question_ids).length) :
    (question pool s (.submit (some sel))).1 =
      { s with
          selected_option := some sel, show_answer := true,
          answers := dict_set s.answers
            ((filtered_questions pool s.question_ids).get
              ⟨s.current_question, h⟩).question_id sel } := by
  have hp : pool.isEmpty = false := by
    cases pool with
    | nil => rw [filtered_questions_nil] at h; simp at h
    | cons a l => rfl
  have hq2 : (filtered_questions pool s.question_ids).isEmpty = false := by
    cases he : filtered_questions pool s.question_ids with
    | nil => rw [he] at h; simp at h
    | cons a l => rfl
  unfold question
  simp only [hp, hq2, Bool.false_eq_true, if_false, dif_pos h]

theorem question_next_state (pool : Pool) (s : SessionState)
    (h : s.current_question < (filtered_questions pool s.question_ids).length) :
    (question pool s .next).1 =
      { s with
          wrong_questions :=
            if wrong_selected s.selected_option
                 (correct_option_first
                   ((filtered_questions pool s.question_ids).get
                     ⟨s.current_question, h⟩))
               && !(s.wrong_questions.contains
                     ((filtered_questions pool s.question_ids).get
                       ⟨s.current_question, h⟩).question_id) then
              s.wrong_questions ++
                [((filtered_questions pool s.question_ids).get
                   ⟨s.current_question, h⟩).question_id]
            else s.wrong_questions,
          current_question := s.current_question + 1,
          show_answer := false, selected_option := none } := by
  have hp : pool.isEmpty = false := by
    cases pool with
    | nil => rw [filtered_questions_nil] at h; simp at h
    | cons a l => rfl
  have hq2 : (filtered_questions pool s.question_ids).isEmpty = false := by
    cases he : filtered_questions pool s.question_ids with
    | nil => rw [he] at h; simp at h
    | cons a l => rfl
  unfold question
  simp only [hp, hq2, Bool.false_eq_true, if_false, dif_pos h]

theorem dict_get_set (d : List (Nat × Nat)) (k v : Nat) :
    dict_get (dict_set d k v) k = some v := by
  unfold dict_get dict_set
  split
  · next hany =>
    induction d with
    | nil => simp at hany
    | cons p rest ih =>
      by_cases hk : p.1 == k
      · simp [List.find?, hk]
      · simp only [List.any_cons, Bool.or_eq_true] at hany
        rcases hany with hh | ht
        · exact absurd hh (by simpa using hk)
        · simpa [List.find?, hk] using ih ht
  · induction d with
    | nil => simp [List.find?]
    | cons p rest ih =>
      next hany =>
      simp only [List.any_cons, Bool.or_eq_true, not_or] at hany
      have hk : (p.1 == k) = false := by
        cases hb : p.1 == k
        · rfl
        · exact absurd hb hany.1
      simp only [List.cons_append, List.find?, hk]
      exact ih (by simpa using hany.2)

theorem q_map_some (pool : Pool) (qid : Nat) (q : StoredQuestion)
    (h : q_map pool qid = some q) : q.question_id = qid := by
  unfold q_map at h
  induction pool using List.reverseRecOn with
  | nil => simp at h
  | append_singleton xs x ih =>
    rw [List.foldl_append] at h
    simp only [List.foldl_cons, List.foldl_nil] at h
    by_cases hx : x.question_id == qid
    · rw [if_pos hx] at h
      cases h
      simpa using hx
    · rw [if_neg hx] at h
      exact ih h

theorem q_map_none_iff (pool : Pool) (qid : Nat) :
    q_map pool qid = none ↔ qid ∉ pool.map (fun q => q.question_id) := by
  unfold q_map
  induction pool using List.reverseRecOn with
  | nil => simp
  | append_singleton xs x ih =>
    rw [List.foldl_append]
    simp only [List.foldl_cons, List.foldl_nil]
    by_cases hx : x.question_id == qid
    · simp only [if_pos hx]
      simp only [beq_iff_eq] at hx
      simp [hx]
    · simp only [if_neg hx]
      simp only [beq_iff_eq] at hx
      rw [ih]
      simp only [List.map_append, List.map_cons, List.map_nil, List.mem_append,
        List.mem_cons, List.not_mem_nil, or_false, not_or]
      have hne : ¬ qid = x.question_id := fun hh => hx hh.symm
      tauto

/-- The id list of a filtered question order is exactly the requested ids
still present in the pool, in the requested order. -/
theorem filtered_map_id (pool : Pool) (ids : List Nat) :
    (ids.filterMap (fun qid => q_map pool qid)).map (fun q => q.question_id)
      = ids.filter (fun qid => (pool.map (fun q => q.question_id)).contains qid) := by
  induction ids with
  | nil => rfl
  | cons x xs ih =>
    simp only [List.filterMap_cons]
    cases hq : q_map pool x with
    | none =>
      have hx : ((pool.map (fun q => q.question_id)).contains x) = false := by
        have := (q_map_none_iff pool x).mp hq
        simpa using this
      rw [List.filter_cons]
      simp only [hx, Bool.false_eq_true, if_false]
      exact ih
    | some q =>
      have hqid : q.question_id = x := q_map_some pool x q hq
      have hx : ((pool.map (fun q => q.question_id)).contains x) = true := by
        by_contra hc
        have : q_map pool x = none := by
          apply (q_map_none_iff pool x).mpr
          simpa using hc
        rw [this] at hq; cases hq
      rw [List.filter_cons]
      simp only [hx, if_true, List.map_cons, hqid, ih]

theorem nodup_append_singleton {l : List Nat} {a : Nat}
    (hl : l.Nodup) (ha : a ∉ l) : (l ++ [a]).Nodup := by
  have h2 : (a :: (l ++ [])).Nodup := by simp [List.nodup_cons, ha, hl]
  exact List.nodup_middle.mpr h2

/-- The two session invariants every reachable state satisfies: the current
index never passes the end of the active question order, and the wrong-answer
list never holds a question id twice. -/
theorem reachable_invariant (pool : Pool) (s : SessionState)
    (h : Reachable pool s) :
    s.current_question ≤ (filtered_questions pool s.question_ids).length
      ∧ s.wrong_questions.Nodup := by
  induction h with
  | init => exact ⟨Nat.zero_le _, List.nodup_nil⟩
  | step r hr ih =>
    rename_i s1
    cases r with
    | start rnd => exact ⟨Nat.zero_le _, List.nodup_nil⟩
    | show_results => exact ih
    | retry =>
      simp only [step, retry_wrong]
      split
      · exact ih
      · exact ⟨Nat.zero_le _, List.nodup_nil⟩
    | quiz qr =>
      by_cases hlt : s1.current_question < (filtered_questions pool s1.question_ids).length
      · cases qr with
        | get =>
          simp only [step, question_get_state]
          exact ih
        | submit ans =>
          cases ans with
          | none =>
            simp only [step, question_submit_none_state]
            exact ih
          | some sel =>
            simp only [step, question_submit_some_state pool s1 sel hlt]
            exact ⟨Nat.le_of_lt hlt, ih.2⟩
        | next =>
          simp only [step, question_next_state pool s1 hlt]
          refine ⟨hlt, ?_⟩
          split
          · next hcond =>
            have hcont : (s1.wrong_questions.contains
                ((filtered_questions pool s1.question_ids).get
                  ⟨s1.current_question, hlt⟩).question_id) = false := by
              rcases Bool.and_eq_true_iff.mp hcond with ⟨_, hnc⟩
              cases hb : s1.wrong_questions.contains
                  ((filtered_questions pool s1.question_ids).get
                    ⟨s1.current_question, hlt⟩).question_id
              · rfl
              · rw [hb] at hnc; cases hnc
            have hnotmem : ((filtered_questions pool s1.question_ids).get
                ⟨s1.current_question, hlt⟩).question_id ∉ s1.wrong_questions := by
              intro hmem
              have helem := List.elem_eq_true_of_mem hmem
              have hc2 : (List.elem
                  ((filtered_questions pool s1.question_ids).get
                    ⟨s1.current_question, hlt⟩).question_id s1.wrong_questions) = false := hcont
              rw [hc2] at helem
              cases helem
            exact nodup_append_singleton ih.2 hnotmem
          · exact ih.2
      · simp only [step, question_stuck pool s1 qr hlt]
        exact ih

/-! ## The shuffle is a permutation -/

theorem listSwap_perm {α : Type} [DecidableEq α] (l : List α) (i j : Nat) :
    (listSwap l i j).Perm l := by
  unfold listSwap
  split
  · next h =>
    obtain ⟨hi, hj⟩ := h
    rw [List.perm_iff_count]
    intro a
    have hj2 : j < (l.set i (l.get ⟨j, hj⟩)).length := by simpa using hj
    rw [List.count_set _ _ _ _ hj2, List.count_set _ _ _ _ hi]
    have hx : (l.set i (l.get ⟨j, hj⟩))[j] = l[j] := by
      rw [List.getElem_set]
      split <;> simp_all
    rw [hx]
    have hci : l[i] = a → 1 ≤ l.count a := by
      intro he
      have : a ∈ l := he ▸ l.getElem_mem hi
      exact List.count_pos_iff.mpr this
    have hcj : l[j] = a → 1 ≤ l.count a := by
      intro he
      have : a ∈ l := he ▸ l.getElem_mem hj
      exact List.count_pos_iff.mpr this
    simp only [beq_iff_eq, List.get_eq_getElem]
    by_cases h1 : l[i] = a <;> by_cases h2 : l[j] = a
    · have := hci h1
      simp only [h1, h2, ite_true, ite_false]
      omega
    · have := hci h1
      simp only [h1, h2, ite_true, ite_false]
      omega
    · have := hcj h2
      simp only [h1, h2, ite_true, ite_false]
      omega
    · simp only [h1, h2, ite_true, ite_false]
      omega
  · exact List.Perm.refl l

theorem fyDown_perm {α : Type} [DecidableEq α] (r : Nat → Nat) :
    ∀ (i : Nat) (l : List α), (fyDown r l i).Perm l
  | 0, l => List.Perm.refl l
  | i + 1, l =>
    (fyDown_perm r i (listSwap l (i + 1) (r (i + 1) % (i + 2)))).trans
      (listSwap_perm l (i + 1) (r (i + 1) % (i + 2)))

/-- Whatever randoms are drawn, `random.shuffle` rearranges the list. -/
theorem shuffle_perm {α : Type} [DecidableEq α] (r : Nat → Nat) (l : List α) :
    (shuffle r l).Perm l := fyDown_perm r (l.length - 1) l

/-! ## Persisting a response: what `save_questions_to_db` writes -/

theorem option_rows_qid (qid : Nat) :
    ∀ (oid : Nat) (opts : List MCQOption) (row : OptionRow),
      row ∈ option_rows qid oid opts → row.question_id = qid := by
  intro oid opts
  induction opts generalizing oid with
  | nil => intro row h; cases h
  | cons o rest ih =>
    intro row h
    rcases List.mem_cons.mp h with h | h
    · rw [h]
    · exact ih (oid + 1) row h

/-- Among the rows one question contributes, the correct-flagged ones are in
bijection with the correct-flagged options of the response question. -/
theorem option_rows_correct_count (qid : Nat) :
    ∀ (oid : Nat) (opts : List MCQOption),
      ((option_rows qid oid opts).filter
        (fun r => r.question_id == qid && r.is_correct == 1)).length
      = (opts.filter (fun o => o.is_correct)).length := by
  intro oid opts
  induction opts generalizing oid with
  | nil => rfl
  | cons o rest ih =>
    simp only [option_rows, List.filter_cons]
    cases hc : o.is_correct with
    | false => simp [hc, ih (oid + 1)]
    | true => simp [hc, ih (oid + 1)]

theorem foldl_insert_option (qid : Nat) :
    ∀ (opts : List MCQOption) (db : DBState),
      opts.foldl (fun d o => insert_option d qid o) db =
        { db with
            options := db.options ++ option_rows qid db.next_option_id opts,
            next_option_id := db.next_option_id + opts.length } := by
  intro opts
  induction opts with
  | nil => intro db; simp [option_rows]
  | cons o rest ih =>
    intro db
    rw [List.foldl_cons, ih]
    simp [insert_option, option_rows, Nat.add_assoc, Nat.add_comm 1 rest.length]

theorem insert_question_eq (db : DBState) (q : Question) :
    insert_question db q =
      ⟨db.questions ++ [⟨db.next_question_id, q.text⟩],
       db.options ++ option_rows db.next_question_id db.next_option_id q.options,
       db.next_question_id + 1,
       db.next_option_id + q.options.length⟩ := by
  unfold insert_question
  rw [foldl_insert_option]

/-- Saving preserves per-question correct-option counts: if the store is
well-formed and every already-stored question has exactly one correct row,
and every response question has exactly one correct flag, the same holds of
every question after the save. -/
theorem save_fold_one_correct :
    ∀ (qs : List Question) (db : DBState),
      db_ids_below db →
      (∀ p ∈ db.questions, correct_row_count db p.question_id = 1) →
      (∀ q ∈ qs, (q.options.filter (fun o => o.is_correct)).length = 1) →
      db_ids_below (qs.foldl insert_question db)
        ∧ ∀ p ∈ (qs.foldl insert_question db).questions,
            correct_row_count (qs.foldl insert_question db) p.question_id = 1 := by
  intro qs
  induction qs with
  | nil => intro db hids hold _; exact ⟨hids, hold⟩
  | cons q rest ih =>
    intro db hids hold hone
    rw [List.foldl_cons]
    have hq1 : (q.options.filter (fun o => o.is_correct)).length = 1 :=
      hone q (List.mem_cons_self q rest)
    have hdb1eq := insert_question_eq db q
    have hids1 : db_ids_below (insert_question db q) := by
      rw [hdb1eq]
      constructor
      · intro row hrow
        rcases List.mem_append.mp hrow with hrow | hrow
        · exact Nat.lt_succ_of_lt (hids.1 row hrow)
        · rw [option_rows_qid db.next_question_id db.next_option_id q.options row hrow]
          exact Nat.lt_succ_self _
      · intro p hp
        rcases List.mem_append.mp hp with hp | hp
        · exact Nat.lt_succ_of_lt (hids.2 p hp)
        · rw [List.mem_singleton.mp hp]
          exact Nat.lt_succ_self _
    have hold1 : ∀ p ∈ (insert_question db q).questions,
        correct_row_count (insert_question db q) p.question_id = 1 := by
      intro p hp
      rw [hdb1eq] at hp ⊢
      unfold correct_row_count
      simp only [List.filter_append, List.length_append]
      rcases List.mem_append.mp hp with hp | hp
      · -- a question that was already stored: the new rows are under the new
        -- id, strictly above its id, so its count is untouched
        have hplt : p.question_id < db.next_question_id := hids.2 p hp
        have hnew : (List.filter
            (fun r => r.question_id == p.question_id && r.is_correct == 1)
            (option_rows db.next_question_id db.next_option_id q.options)) = [] := by
          apply List.filter_eq_nil_iff.mpr
          intro row hrow
          have hrq := option_rows_qid db.next_question_id db.next_option_id q.options row hrow
          simp only [Bool.and_eq_true, beq_iff_eq, not_and]
          intro hqe
          rw [hrq] at hqe
          omega
        rw [hnew]
        have hcnt := hold p hp
        unfold correct_row_count at hcnt
        simpa using hcnt
      · -- the question just inserted: the old rows are all under smaller ids,
        -- and its own rows carry exactly the response's flags
        rw [List.mem_singleton.mp hp]
        have hofilter : (List.filter
            (fun r => r.question_id == db.next_question_id && r.is_correct == 1)
            db.options) = [] := by
          apply List.filter_eq_nil_iff.mpr
          intro row hrow
          have hlt := hids.1 row hrow
          simp only [Bool.and_eq_true, beq_iff_eq, not_and]
          intro hqe
          omega
        rw [hofilter]
        simpa [option_rows_correct_count db.next_question_id db.next_option_id q.options]
          using hq1
    exact ih (insert_question db q) hids1 hold1
      (fun q2 hq2 => hone q2 (List.mem_cons_of_mem q hq2))

/-! ## CLI parsing lemmas -/

theorem parse_args_no_flag :
    ∀ (args fps : List String) (n : Int), "-n" ∉ args →
      parse_args args fps n =
        if (fps ++ args).isEmpty then .error_exit else .run (fps ++ args) n := by
  intro args
  induction args with
  | nil => intro fps n _; simp [parse_args]
  | cons a rest ih =>
    intro fps n hmem
    have ha : ¬ a = "-n" := fun h => hmem (h ▸ List.mem_cons_self a rest)
    have hrest : "-n" ∉ rest := fun h => hmem (List.mem_cons_of_mem a h)
    unfold parse_args
    rw [if_neg ha, ih (fps ++ [a]) n hrest]
    simp

theorem spec_scan_cons_ne (a : String) (rest : List String) (ha : ¬ a = "-n") :
    spec_scan (a :: rest) = (a :: (spec_scan rest).1, (spec_scan rest).2) := by
  cases rest with
  | nil => rw [spec_scan.eq_2, if_neg ha]
  | cons b tail => rw [spec_scan.eq_3, if_neg ha]

theorem spec_scan_flag_pair (v : String) (rest2 : List String) :
    spec_scan ("-n" :: v :: rest2) = spec_scan rest2 := by
  rw [spec_scan.eq_3, if_pos rfl]

theorem spec_scan_flag_end : spec_scan ["-n"] = ([], true) := by
  rw [spec_scan.eq_2, if_pos rfl]

/-- When the spec-side scan finds no file path and no dangling `-n`, the
argument list is a chain of `-n value` pairs, and the source parser ends
with an empty file-path list (error exit) or dies in `int(...)`. -/
theorem parse_args_all_flags :
    ∀ (args : List String) (n : Int),
      (spec_scan args).1 = [] → (spec_scan args).2 = false →
      parse_args args [] n = .error_exit ∨ parse_args args [] n = .value_error := by
  intro args
  induction args using spec_scan.induct with
  | case1 => intro n _ _; exact Or.inl rfl
  | case2 =>
    intro n h1 h2
    rw [spec_scan_flag_end] at h2
    cases h2
  | case3 v rest2 ih =>
    intro n h1 h2
    rw [spec_scan_flag_pair] at h1 h2
    cases hv : v.toInt? with
    | some m =>
      have := ih m h1 h2
      simpa [parse_args, hv] using this
    | none => simp [parse_args, hv]
  | case4 a rest ha ih =>
    intro n h1 h2
    rw [spec_scan_cons_ne a rest ha] at h1
    cases h1

theorem reachable_t3 : Reachable pool3 t3 :=
  Reachable.step (.quiz (.submit (some 6)))
    (Reachable.step (.quiz .next)
      (Reachable.step (.quiz (.submit (some 2)))
        (Reachable.step (.start straight_draws) Reachable.init)))

theorem reachable_t6 : Reachable pool3 t6 :=
  Reachable.step (.quiz .next)
    (Reachable.step (.quiz (.submit (some 9)))
      (Reachable.step (.quiz .next) reachable_t3))

/-! ## Claim theorems -/

/-- C2: in the fixed three-question scenario (order [Q1, Q2, Q3], submit B
for Q1 and advance, B for Q2 and advance, A for Q3 and advance), the wrong
list ends as [Q1, Q3] in that order, the score report counts 1 correct of 3,
and retry-wrong makes [Q1, Q3] the next question order. -/
theorem spec_C2 :
    t0.question_ids = some [1, 2, 3]
      ∧ t6.wrong_questions = [1, 3]
      ∧ (results pool3 t6).correct_count = 1
      ∧ (results pool3 t6).total = 3
      ∧ ((retry_wrong t6).1).question_ids = some [1, 3] := by
  decide

/-- C7: with an empty pool, `index` stores a zero-length question order,
every request to the `question` route leaves the session unchanged and
renders the explicit no-questions view, and the score report is 0 of 0. -/
theorem spec_C7 :
    (∀ r : Nat → Nat, ((index ([] : Pool) r).1).question_ids = some [])
      ∧ (∀ (s : SessionState) (req : QuizReq),
          question ([] : Pool) s req = (s, View.no_questions))
      ∧ (∀ s : SessionState,
          (results ([] : Pool) s).total = 0
            ∧ (results ([] : Pool) s).correct_count = 0) := by
  refine ⟨fun r => rfl, fun s req => rfl, fun s => ?_⟩
  unfold results
  rw [filtered_questions_nil]
  exact ⟨rfl, rfl⟩

/-- C10: a submit request without a selected option changes nothing: the
session state after the request is the state before it (no answer recorded,
no reveal flag set, the index untouched). -/
theorem spec_C10 (pool : Pool) (s : SessionState) :
    (question pool s (.submit none)).1 = s :=
  question_submit_none_state pool s

/-- C9: `retry_wrong` (on a non-empty wrong list) resets the index, the
answers, the question order and the wrong list, but leaves `show_answer` and
`selected_option` as they were; consequently a reachable state exists
(retrying while an answer is revealed) in which the retry run opens already
revealed, still carrying the previous run's selection. -/
theorem spec_C9 :
    (∀ s : SessionState, s.wrong_questions ≠ [] →
        ((retry_wrong s).1).show_answer = s.show_answer
          ∧ ((retry_wrong s).1).selected_option = s.selected_option
          ∧ ((retry_wrong s).1).current_question = 0
          ∧ ((retry_wrong s).1).answers = []
          ∧ ((retry_wrong s).1).question_ids = some s.wrong_questions
          ∧ ((retry_wrong s).1).wrong_questions = [])
      ∧ ∃ s : SessionState, Reachable pool3 s
          ∧ s.show_answer = true
          ∧ s.selected_option = some 6
          ∧ s.wrong_questions ≠ []
          ∧ ((retry_wrong s).1).show_answer = true
          ∧ ((retry_wrong s).1).selected_option = some 6 := by
  constructor
  · intro s hw
    have hne : s.wrong_questions.isEmpty = false := by
      cases hq : s.wrong_questions with
      | nil => exact absurd hq hw
      | cons a l => rfl
    unfold retry_wrong
    rw [if_neg (by simp [hne])]
    exact ⟨rfl, rfl, rfl, rfl, rfl, rfl⟩
  · exact ⟨t3, reachable_t3, by decide, by decide, by decide, by decide, by decide⟩

/-- Witness for C9 at the concrete reachable state `t3` (answer for Q2 just
submitted and revealed, Q1 already wrong). -/
theorem spec_C9_witness :
    t3.wrong_questions ≠ []
      ∧ ((retry_wrong t3).1).show_answer = t3.show_answer
      ∧ ((retry_wrong t3).1).selected_option = t3.selected_option :=
  ⟨by decide, (spec_C9.1 t3 (by decide)).1, (spec_C9.1 t3 (by decide)).2.1⟩

theorem reachable_t5 : Reachable pool3 t5 :=
  Reachable.step (.quiz (.submit (some 9)))
    (Reachable.step (.quiz .next) reachable_t3)

theorem contains_false_not_mem {l : List Nat} {a : Nat}
    (h : l.contains a = false) : a ∉ l := by
  intro hmem
  have helem := List.elem_eq_true_of_mem hmem
  have h2 : List.elem a l = false := h
  rw [h2] at helem
  cases helem

/-- C3: starting a full run stores a permutation of the pool's ids as the
question order (each id exactly once when the pool ids are distinct), and a
retry run's effective question list is exactly the requested subset of ids
still present in the pool, in the requested order. -/
theorem spec_C3 (pool : Pool) (_hne : pool ≠ []) :
    (∀ r : Nat → Nat,
        ∃ ids : List Nat,
          ((index pool r).1).question_ids = some ids
            ∧ ids.Perm (pool.map (fun q => q.question_id))
            ∧ ((pool.map (fun q => q.question_id)).Nodup →
                ∀ qid ∈ pool.map (fun q => q.question_id), ids.count qid = 1))
      ∧ ∀ s : SessionState, s.wrong_questions ≠ [] →
          (filtered_questions pool (((retry_wrong s).1).question_ids)).map
              (fun q => q.question_id)
            = s.wrong_questions.filter
                (fun qid => (pool.map (fun q => q.question_id)).contains qid) := by
  constructor
  · intro r
    refine ⟨shuffle r (pool.map (fun q => q.question_id)), ?_,
      shuffle_perm r _, fun hnd qid hqid => ?_⟩
    · rfl
    · rw [(shuffle_perm r (pool.map (fun q => q.question_id))).count_eq]
      exact List.count_eq_one_of_mem hnd hqid
  · intro s hw
    have hne2 : s.wrong_questions.isEmpty = false := by
      cases hq : s.wrong_questions with
      | nil => exact absurd hq hw
      | cons a l => rfl
    have hretry : ((retry_wrong s).1).question_ids = some s.wrong_questions := by
      unfold retry_wrong
      rw [if_neg (by simp [hne2])]
    rw [hretry]
    have hfq : filtered_questions pool (some s.wrong_questions)
        = s.wrong_questions.filterMap (fun qid => q_map pool qid) := by
      show (if s.wrong_questions.isEmpty = true then pool
          else s.wrong_questions.filterMap (fun qid => q_map pool qid)) = _
      rw [if_neg (by simp [hne2])]
    rw [hfq]
    exact filtered_map_id pool s.wrong_questions

/-- Witness for C3: the three-question pool, the identity draw stream, and
the retry at the end of the concrete run. -/
theorem spec_C3_witness :
    (∃ ids : List Nat,
        ((index pool3 straight_draws).1).question_ids = some ids
          ∧ ids.Perm (pool3.map (fun q => q.question_id))
          ∧ ((pool3.map (fun q => q.question_id)).Nodup →
              ∀ qid ∈ pool3.map (fun q => q.question_id), ids.count qid = 1))
      ∧ (filtered_questions pool3 (((retry_wrong t6).1).question_ids)).map
            (fun q => q.question_id)
          = t6.wrong_questions.filter
              (fun qid => (pool3.map (fun q => q.question_id)).contains qid) :=
  ⟨(spec_C3 pool3 (by decide)).1 straight_draws,
   (spec_C3 pool3 (by decide)).2 t6 (by decide)⟩

/-- C4: on every reachable state the current index is at most the length of
the active question order; an advance from below the end moves it up by
exactly one; and once the index is at the end an advance request leaves the
state untouched (it only redirects to the results view). -/
theorem spec_C4 (pool : Pool) (s : SessionState) (h : Reachable pool s) :
    s.current_question ≤ (filtered_questions pool s.question_ids).length
      ∧ (s.current_question < (filtered_questions pool s.question_ids).length →
          ((question pool s .next).1).current_question = s.current_question + 1)
      ∧ (s.current_question = (filtered_questions pool s.question_ids).length →
          (question pool s .next).1 = s) := by
  refine ⟨(reachable_invariant pool s h).1, fun hlt => ?_, fun heq => ?_⟩
  · rw [question_next_state pool s hlt]
  · exact question_stuck pool s .next (by omega)

/-- Witness for C4 at the completed concrete run `t6` (index 3 of 3). -/
theorem spec_C4_witness :
    t6.current_question ≤ (filtered_questions pool3 t6.question_ids).length
      ∧ (question pool3 t6 .next).1 = t6 :=
  ⟨(spec_C4 pool3 t6 reachable_t6).1,
   (spec_C4 pool3 t6 reachable_t6).2.2 (by decide)⟩

/-- C5: on every reachable state the wrong list holds no id twice, and an
advance either leaves it unchanged or appends a single id that was not yet
in it — repeated wrong submissions before the advance cannot duplicate an
entry. -/
theorem spec_C5 (pool : Pool) (s : SessionState) (h : Reachable pool s) :
    s.wrong_questions.Nodup
      ∧ (((question pool s .next).1).wrong_questions = s.wrong_questions
          ∨ ∃ qid : Nat, qid ∉ s.wrong_questions
              ∧ ((question pool s .next).1).wrong_questions
                  = s.wrong_questions ++ [qid]) := by
  refine ⟨(reachable_invariant pool s h).2, ?_⟩
  by_cases hlt : s.current_question < (filtered_questions pool s.question_ids).length
  · rw [question_next_state pool s hlt]
    show (if _ then _ else _) = _ ∨ _
    split
    · next hcond =>
      right
      refine ⟨((filtered_questions pool s.question_ids).get
        ⟨s.current_question, hlt⟩).question_id, ?_, rfl⟩
      rcases Bool.and_eq_true_iff.mp hcond with ⟨_, hnc⟩
      apply contains_false_not_mem
      cases hb : s.wrong_questions.contains
          ((filtered_questions pool s.question_ids).get
            ⟨s.current_question, hlt⟩).question_id
      · rfl
      · rw [hb] at hnc; cases hnc
    · left; rfl
  · rw [question_stuck pool s .next hlt]
    left; rfl

/-- Witness for C5 at the concrete state `t5` (third question answered
wrong, advance appends Q3's id to the wrong list). -/
theorem spec_C5_witness :
    t5.wrong_questions.Nodup
      ∧ (((question pool3 t5 .next).1).wrong_questions = t5.wrong_questions
          ∨ ∃ qid : Nat, qid ∉ t5.wrong_questions
              ∧ ((question pool3 t5 .next).1).wrong_questions
                  = t5.wrong_questions ++ [qid]) :=
  spec_C5 pool3 t5 reachable_t5

theorem last_find_congr {α : Type} (p q : α → Bool) (l : List α)
    (h : ∀ x ∈ l, p x = q x) : last_find p l = last_find q l := by
  unfold last_find
  suffices hgen : ∀ acc : Option α,
      l.foldl (fun acc x => if p x then some x else acc) acc
        = l.foldl (fun acc x => if q x then some x else acc) acc from hgen none
  induction l with
  | nil => intro acc; rfl
  | cons x xs ih =>
    intro acc
    simp only [List.foldl_cons]
    rw [h x (List.mem_cons_self x xs)]
    exact ih (fun y hy => h y (List.mem_cons_of_mem x hy)) _

/-- C6: submitting for the current question (once or repeatedly) and then
scoring shows exactly the last submitted option: the recorded answer is the
last submission, the report row for that question is built from it, and the
row's selected option is the question's option carrying the submitted id. -/
theorem spec_C6 (pool : Pool) (s : SessionState)
    (h : s.current_question < (filtered_questions pool s.question_ids).length)
    (o1 o2 : Nat) (q : StoredQuestion) (s2 : SessionState)
    (hq : q = (filtered_questions pool s.question_ids).get ⟨s.current_question, h⟩)
    (hs2 : s2 = (question pool
        ((question pool s (.submit (some o1))).1) (.submit (some o2))).1) :
    dict_get s2.answers q.question_id = some o2
      ∧ (results pool s2).results.get? s.current_question
          = some (result_row s2.answers q)
      ∧ (result_row s2.answers q).selected
          = last_find (fun o => o.option_id == o2) q.options := by
  have hs1 := question_submit_some_state pool s o1 h
  set s1 := (question pool s (.submit (some o1))).1 with hs1def
  have hids1 : s1.question_ids = s.question_ids := by rw [hs1]
  have hcur1 : s1.current_question = s.current_question := by rw [hs1]
  have h1 : s1.current_question < (filtered_questions pool s1.question_ids).length := by
    rw [hids1, hcur1]; exact h
  have hs2eq := question_submit_some_state pool s1 o2 h1
  have hgeteq : (filtered_questions pool s1.question_ids).get
      ⟨s1.current_question, h1⟩
      = (filtered_questions pool s.question_ids).get ⟨s.current_question, h⟩ := by
    have e1 : filtered_questions pool s1.question_ids
        = filtered_questions pool s.question_ids := by rw [hids1]
    have h2 : some ((filtered_questions pool s1.question_ids).get
          ⟨s1.current_question, h1⟩)
        = some ((filtered_questions pool s.question_ids).get
          ⟨s.current_question, h⟩) := by
      rw [List.get_eq_getElem, List.get_eq_getElem,
        ← List.getElem?_eq_getElem, ← List.getElem?_eq_getElem]
      dsimp only
      rw [e1, hcur1]
    exact Option.some_injective _ h2
  have hans2 : s2.answers = dict_set s1.answers q.question_id o2 := by
    rw [hs2, hs2eq, hgeteq, ← hq]
  have hids2 : s2.question_ids = s.question_ids := by
    rw [hs2, hs2eq]
    exact hids1
  have hget : dict_get s2.answers q.question_id = some o2 := by
    rw [hans2]
    exact dict_get_set s1.answers q.question_id o2
  refine ⟨hget, ?_, ?_⟩
  · show (ScoreReport.results ⟨(filtered_questions pool s2.question_ids).map
        (result_row s2.answers), _, _, _⟩).get? s.current_question = _
    show ((filtered_questions pool s2.question_ids).map
        (result_row s2.answers)).get? s.current_question = _
    rw [hids2]
    rw [List.get?_eq_getElem?, List.getElem?_map]
    rw [List.getElem?_eq_getElem h]
    rw [hq]
    rfl
  · unfold result_row
    show last_find (fun o => dict_get s2.answers q.question_id == some o.option_id)
        q.options = _
    rw [hget]
    apply last_find_congr
    intro o _
    show (some o2 == some o.option_id) = (o.option_id == o2)
    by_cases he : o.option_id = o2
    · simp [he]
    · have he2 : ¬ o2 = o.option_id := fun hh => he hh.symm
      simp [he, he2]

/-- Witness for C6: submit option 1 then option 2 for Q1 at the start of the
concrete run; the recorded answer for question 1 is option 2. -/
theorem spec_C6_witness :
    dict_get ((question pool3 ((question pool3 t0 (.submit (some 1))).1)
        (.submit (some 2))).1).answers 1 = some 2 :=
  (spec_C6 pool3 t0 (by decide) 1 2
    ⟨1, "Q1", [⟨1, "A", 1⟩, ⟨2, "B", 0⟩, ⟨3, "C", 0⟩, ⟨4, "D", 0⟩]⟩
    ((question pool3 ((question pool3 t0 (.submit (some 1))).1)
      (.submit (some 2))).1)
    (by decide) rfl).1

/-- Counterexample to C1 as stated: a response with two correct flags on one
question passes schema validation unchanged, and saving it persists a
question whose stored correct-option count is 2, not 1 — validation does not
establish the one-correct-option invariant. -/
theorem spec_C1_counterexample :
    validate_mcq_response two_correct_resp = .ok two_correct_resp
      ∧ (save_questions_to_db (clear_database ⟨[], [], 1, 1⟩)
          two_correct_resp).questions = [⟨1, "q"⟩]
      ∧ correct_row_count
          (save_questions_to_db (clear_database ⟨[], [], 1, 1⟩) two_correct_resp) 1
          = 2 :=
  ⟨rfl, rfl, rfl⟩

/-- C1 (amended): validation enforces exactly 4 options per question but
does not inspect the correctness flags; saving preserves each option's flag
verbatim, so when every question of the validated response happens to carry
exactly one correct flag, every persisted question has exactly one correct
option row. -/
theorem spec_C1 (resp resp2 : MCQResponse) (db0 : DBState)
    (hv : validate_mcq_response resp = .ok resp2)
    (hone : ∀ q ∈ resp.questions,
      (q.options.filter (fun o => o.is_correct)).length = 1) :
    (∀ q ∈ resp2.questions, q.options.length = 4)
      ∧ ∀ p ∈ (save_questions_to_db (clear_database db0) resp2).questions,
          correct_row_count
            (save_questions_to_db (clear_database db0) resp2) p.question_id = 1 := by
  have hall : resp.questions.all (fun q => q.options.length == 4) = true := by
    unfold validate_mcq_response at hv
    by_cases hc : resp.questions.all (fun q => q.options.length == 4) = true
    · exact hc
    · rw [if_neg hc] at hv; cases hv
  have hresp : resp2 = resp := by
    unfold validate_mcq_response at hv
    rw [if_pos hall] at hv
    cases hv
    rfl
  subst hresp
  constructor
  · intro q hq
    have := List.all_eq_true.mp hall q hq
    simpa using this
  · have hempty : db_ids_below (clear_database db0) := by
      constructor
      · intro row hrow; cases hrow
      · intro p hp; cases hp
    have hold : ∀ p ∈ (clear_database db0).questions,
        correct_row_count (clear_database db0) p.question_id = 1 := by
      intro p hp; cases hp
    have := save_fold_one_correct resp2.questions (clear_database db0) hempty hold hone
    exact this.2

/-- Witness for C1 (amended) on the well-formed single-question response. -/
theorem spec_C1_witness :
    correct_row_count
      (save_questions_to_db (clear_database ⟨[], [], 1, 1⟩) one_correct_resp) 1 = 1 :=
  (spec_C1 one_correct_resp one_correct_resp ⟨[], [], 1, 1⟩ rfl (by decide)).2
    ⟨1, "q"⟩ (by decide)

/-- Counterexample to C8 as stated: invoking the pipeline with the single
argument `-n` gives no file path under the spec's CLI grammar, yet the
program does not exit — the parser takes the dangling `-n` itself as a file
path and proceeds to database and network work with it. -/
theorem spec_C8_counterexample :
    (spec_scan ["-n"]).1 = []
      ∧ mcq_generator.main ["-n"] = .run ["-n"] 10
      ∧ ¬ (mcq_generator.main ["-n"] = .usage_exit
            ∨ mcq_generator.main ["-n"] = .error_exit
            ∨ mcq_generator.main ["-n"] = .value_error) := by
  decide

/-- C8 (amended): when the invocation gives no file paths and does not end
in a dangling `-n`, the program exits with status 1 before any database or
network work (the usage text when there are no arguments at all, an error
line or an uncaught int-parse error otherwise); and whenever `-n` is absent
the run proceeds with the default count of 10 questions. -/
theorem spec_C8 (args : List String) :
    ((spec_scan args).1 = [] → (spec_scan args).2 = false →
        mcq_generator.main args = .usage_exit
          ∨ mcq_generator.main args = .error_exit
          ∨ mcq_generator.main args = .value_error)
      ∧ ("-n" ∉ args → args ≠ [] →
          mcq_generator.main args = .run args 10) := by
  constructor
  · intro h1 h2
    unfold mcq_generator.main
    cases args with
    | nil => left; rfl
    | cons a rest =>
      rw [if_neg (by simp)]
      rcases parse_args_all_flags (a :: rest) 10 h1 h2 with h | h
      · right; left; exact h
      · right; right; exact h
  · intro hmem hne
    unfold mcq_generator.main
    cases args with
    | nil => exact absurd rfl hne
    | cons a rest =>
      rw [if_neg (by simp)]
      rw [parse_args_no_flag (a :: rest) [] 10 hmem]
      rfl

/-- Witness for C8 (amended): `-n 5` alone exits before any database work;
a single file path with no `-n` runs with the default count 10. -/
theorem spec_C8_witness :
    (mcq_generator.main ["-n", "5"] = .usage_exit
        ∨ mcq_generator.main ["-n", "5"] = .error_exit
        ∨ mcq_generator.main ["-n", "5"] = .value_error)
      ∧ mcq_generator.main ["doc.pdf"] = .run ["doc.pdf"] 10 :=
  ⟨(spec_C8 ["-n", "5"]).1 (by decide) (by decide),
   (spec_C8 ["doc.pdf"]).2 (by decide) (by decide)⟩
